import Mathlib

/-!
Shallow embedding of `mip/entities.py` (python-mip): the linear-expression
algebra (`LinExpr`), variable handles (`Var`), the `model` property, and
the conflict-graph queries, together with proofs about them.

Modelling conventions: Python real numbers become rationals, Python `None`
becomes `Option`, raising an exception becomes `Except`.  A Python `dict`
keyed by `Var` behaves as a map keyed by `Var.idx`: `Var.__hash__` returns
`idx`, and `Var.__eq__` returns a `LinExpr`, which is truthy, so whenever
the dict machinery compares two keys (only done on equal hashes) they
compare equal.  We therefore model `__expr` as an insertion-ordered
association list looked up by the key's `idx`, mirroring insertion order
of a Python dict.
-/

set_option autoImplicit false

namespace Entities

/-- Exception kinds raised by this module: Python's `TypeError` and
`ValueError`. -/
inductive PyErr where
  | typeError
  | valueError
deriving DecidableEq, Repr

/-- Decision-variable handle (`Var`): a back-reference to the owning model
(modelled by an opaque id) and a stable integer index. -/
structure Var where
  model : Nat
  idx : Nat
deriving DecidableEq, Repr

/-- Solution values as reported by the solver (`solver.var_get_x`), keyed by
variable index; `none` when no solution value is available. -/
def VarSol : Type := Nat → Option ℚ

/-- Property `Var.x`: value of this variable in the solution, delegated to the
owning model's solver. -/
def Var.x (sol : VarSol) (v : Var) : Option ℚ := sol v.idx

/-- Literal tolerance `1e-12` appearing in `LinExpr.__init__` and
`LinExpr.equals`. -/
def tol : ℚ := 1 / 10 ^ 12

/-- Modelled from the spec: `mip.EPS`, the cancellation tolerance used by
`LinExpr.add_var`, is defined outside `entities.py` (the only source file
here); the spec fixes this tolerance at `1e-12`. -/
def EPS : ℚ := 1 / 10 ^ 12

/-- Contents of a `LinExpr.__expr` dict: insertion-ordered association list
from variables to coefficients, with lookups keyed by `Var.idx` (see the
header on dict key semantics). -/
abbrev Dict := List (Var × ℚ)

/-- Lookup `d[i]` by key index: first entry whose key has index `i`. -/
def Dict.lookupIdx : Dict → Nat → Option ℚ
  | [], _ => none
  | (w, c) :: d, i => if w.idx = i then some c else Dict.lookupIdx d i

/-- Update `d[i] = x` for an existing key: replace the stored value, keeping
the originally stored key object and the insertion order, as a Python dict
does. -/
def Dict.setIdx : Dict → Nat → ℚ → Dict
  | [], _, _ => []
  | (w, c) :: d, i, x =>
      if w.idx = i then (w, x) :: d else (w, c) :: Dict.setIdx d i x

/-- Deletion `del d[i]`. -/
def Dict.delIdx : Dict → Nat → Dict
  | [], _ => []
  | (w, c) :: d, i => if w.idx = i then d else (w, c) :: Dict.delIdx d i

/-- Linear expression: constant part, coefficient mapping and sense
(one of `""`, `"="`, `"<"`, `">"`). -/
structure LinExpr where
  const : ℚ
  expr : Dict
  sense : String
deriving DecidableEq, Repr

/-- Method `LinExpr.add_const`: adds a constant to the expression. -/
def LinExpr.add_const (e : LinExpr) (val : ℚ) : LinExpr :=
  { e with const := e.const + val }

/-- Method `LinExpr.add_var`: merges one variable contribution into the
mapping.  If the key is present and the summed coefficient lands within
`[-EPS, EPS]` the entry is deleted; otherwise it is updated; an absent key
is inserted directly. -/
def LinExpr.add_var (e : LinExpr) (v : Var) (coeff : ℚ) : LinExpr :=
  match Dict.lookupIdx e.expr v.idx with
  | some old =>
      if -EPS ≤ old + coeff ∧ old + coeff ≤ EPS then
        { e with expr := Dict.delIdx e.expr v.idx }
      else
        { e with expr := Dict.setIdx e.expr v.idx (old + coeff) }
  | none => { e with expr := e.expr ++ [(v, coeff)] }

/-- Method `LinExpr.add_expr`: `self.__const += expr.const * coeff`, then
`add_var(var, coeff_var * coeff)` for every term of `expr`, in insertion
order. -/
def LinExpr.add_expr (e other : LinExpr) (coeff : ℚ) : LinExpr :=
  other.expr.foldl (fun acc p => acc.add_var p.1 (p.2 * coeff))
    { e with const := e.const + other.const * coeff }

/-- The four-argument `LinExpr.__init__(variables, coeffs, const, sense)`:
when `variables` is non-empty (truthy) the two lists must have equal length
(`ValueError` otherwise), and input coefficients of magnitude `≤ 1e-12`
are skipped (`continue`) before reaching `add_var`. -/
def LinExpr.mk4 (vs : List Var) (coeffs : List ℚ) (const : ℚ)
    (sense : String) : Except PyErr LinExpr :=
  if vs.isEmpty then .ok ⟨const, [], sense⟩
  else if vs.length ≠ coeffs.length then .error .valueError
  else .ok ((vs.zip coeffs).foldl
    (fun acc p => if |p.2| ≤ tol then acc else acc.add_var p.1 p.2)
    ⟨const, [], sense⟩)

/-- Dynamic operand union for the overloaded operators:
a variable, a linear expression, a real number, or anything else. -/
inductive Term where
  | var (v : Var)
  | lin (e : LinExpr)
  | real (r : ℚ)
  | unsupported

/-- Operator `LinExpr.__add__`: works on a copy of the receiver, so at the
value level it is a pure function of the receiver. -/
def LinExpr.add (e : LinExpr) (o : Term) : Except PyErr LinExpr :=
  match o with
  | .var w => .ok (e.add_var w 1)
  | .lin f => .ok (e.add_expr f 1)
  | .real r => .ok (e.add_const r)
  | .unsupported => .error .typeError

/-- Operator `LinExpr.__sub__`. -/
def LinExpr.sub (e : LinExpr) (o : Term) : Except PyErr LinExpr :=
  match o with
  | .var w => .ok (e.add_var w (-1))
  | .lin f => .ok (e.add_expr f (-1))
  | .real r => .ok (e.add_const (-r))
  | .unsupported => .error .typeError

/-- Operator `LinExpr.__eq__`: `self - other` tagged with sense `"="`. -/
def LinExpr.eqRel (e : LinExpr) (o : Term) : Except PyErr LinExpr := do
  let r ← e.sub o
  return { r with sense := "=" }

/-- Operator `LinExpr.__le__`: `self - other` tagged with sense `"<"`. -/
def LinExpr.leRel (e : LinExpr) (o : Term) : Except PyErr LinExpr := do
  let r ← e.sub o
  return { r with sense := "<" }

/-- Operator `LinExpr.__ge__`: `self - other` tagged with sense `">"`. -/
def LinExpr.geRel (e : LinExpr) (o : Term) : Except PyErr LinExpr := do
  let r ← e.sub o
  return { r with sense := ">" }

/-- Operator `Var.__add__`. -/
def Var.add (v : Var) (o : Term) : Except PyErr LinExpr :=
  match o with
  | .var w => LinExpr.mk4 [v, w] [1, 1] 0 ""
  | .lin f => f.add (.var v)
  | .real r => LinExpr.mk4 [v] [1] r ""
  | .unsupported => .error .typeError

/-- Operator `Var.__mul__` (and by `__rmul__` also scalar-on-the-left
multiplication): `LinExpr([self], [other])`. -/
def Var.mul (v : Var) (o : Term) : Except PyErr LinExpr :=
  match o with
  | .real r => LinExpr.mk4 [v] [r] 0 ""
  | _ => .error .typeError

/-- Method `LinExpr.equals`: structural, tolerance-based equality (same
sense, same number of entries, constants within `1e-12`, and each stored
coefficient matched by variable index within `1e-12`). -/
def LinExpr.equals (e other : LinExpr) : Bool :=
  if e.sense ≠ other.sense then false
  else if e.expr.length ≠ other.expr.length then false
  else if |e.const - other.const| ≥ tol then false
  else e.expr.all fun p =>
    match Dict.lookupIdx other.expr p.1.idx with
    | none => false
    | some oc => |p.2 - oc| ≤ tol

/-- Loop of the property `LinExpr.x`: accumulate `var.x * coef`, returning
`None` as soon as some participating variable has no solution value. -/
def LinExpr.xAux (sol : VarSol) : Dict → ℚ → Option ℚ
  | [], acc => some acc
  | (w, c) :: d, acc =>
      match w.x sol with
      | none => none
      | some vx => LinExpr.xAux sol d (acc + vx * c)

/-- Property `LinExpr.x`: value of this linear expression in the solution,
starting from the constant part. -/
def LinExpr.x (e : LinExpr) (sol : VarSol) : Option ℚ :=
  LinExpr.xAux sol e.expr e.const

/-- Loop of the generator `sum(coef * var.x for (var, coef) in ...)` inside
`LinExpr.violation`: in Python, multiplying a number by `None` raises
`TypeError`, so the sum fails on the first unknown value. -/
def LinExpr.lhsSum (sol : VarSol) : Dict → ℚ → Except PyErr ℚ
  | [], acc => .ok acc
  | (w, c) :: d, acc =>
      match w.x sol with
      | none => .error .typeError
      | some vx => LinExpr.lhsSum sol d (acc + c * vx)

/-- Property `LinExpr.violation`: `lhs` is the coefficient-weighted sum of
solution values, `rhs = -const`; dispatch on the sense, raising
`ValueError` on any other sense. -/
def LinExpr.violation (e : LinExpr) (sol : VarSol) : Except PyErr ℚ := do
  let lhs ← LinExpr.lhsSum sol e.expr 0
  let rhs := -e.const
  if e.sense = "=" then return |lhs - rhs|
  else if e.sense = "<" then return max (lhs - rhs) 0
  else if e.sense = ">" then return max (rhs - lhs) 0
  else throw .valueError

/-- Property `LinExpr.model`: `if not self.expr: return None`, then
`return self.expr.keys()[0].model`.  In Python 3 `dict.keys()` is a view
object that does not support subscripting, so the non-empty branch raises
`TypeError` before reading any model (moreover `Var.model` is a plain
method, not a property, so even subscripting would not yield a model). -/
def LinExpr.model (e : LinExpr) : Except PyErr (Option Nat) :=
  if e.expr.isEmpty then .ok none else .error .typeError

/-- Argument passed to the conflict-graph queries: a variable, a linear
expression, or anything else. -/
inductive CGArg where
  | var (v : Var)
  | lin (e : LinExpr)
  | unsupported

/-- Python's `isinstance(e, [LinExpr, Var])` exactly as written in the
source: the second argument is a *list*, which `isinstance` rejects with
`TypeError` regardless of the first argument. -/
def isinstanceList (_ : CGArg) : Except PyErr Bool := .error .typeError

/-- Method `ConflictGraph.conflicting`: both guards call `isinstance` with a
list as second argument, so the very first guard raises before any solver
delegation; `solverAnswer` stands for the opaque
`e1.model.solver.conflicting(e1, e2)` answer. -/
def ConflictGraph.conflicting (solverAnswer : Bool) (e1 e2 : CGArg) :
    Except PyErr Bool := do
  let b1 ← isinstanceList e1
  if b1 then throw .typeError
  let b2 ← isinstanceList e2
  if b2 then throw .typeError
  return solverAnswer

/-- Heap of allocated coefficient dicts, used to track which `LinExpr`
objects share their internal `__expr` dict. -/
structure Heap where
  dicts : List Dict

/-- Dereference a dict. -/
def Heap.get (h : Heap) (r : Nat) : Dict := h.dicts.getD r []

/-- In-place store into a dict. -/
def Heap.set (h : Heap) (r : Nat) (d : Dict) : Heap := ⟨h.dicts.set r d⟩

/-- Allocate a fresh dict, returning its reference. -/
def Heap.alloc (h : Heap) (d : Dict) : Nat × Heap :=
  (h.dicts.length, ⟨h.dicts ++ [d]⟩)

/-- One `LinExpr` object whose `__expr` dict lives on the heap at `ref`;
`const` and `sense` are per-object values. -/
structure HLinExpr where
  const : ℚ
  ref : Nat
  sense : String

/-- Plain value of a heap-allocated expression under a heap. -/
def HLinExpr.val (e : HLinExpr) (h : Heap) : LinExpr :=
  ⟨e.const, h.get e.ref, e.sense⟩

/-- Method `LinExpr.copy` at the object level: constant and sense are copied
by value, and `copy.__expr = self.__expr.copy()` binds the copy to a newly
allocated dict holding the same contents. -/
def HLinExpr.copy (e : HLinExpr) (h : Heap) : HLinExpr × Heap :=
  let a := h.alloc (h.get e.ref)
  (⟨e.const, a.1, e.sense⟩, a.2)

/-- Property `LinExpr.expr` at the object level: returns `self.__expr`
itself, i.e. the reference to the internal dict, not a copy. -/
def HLinExpr.exprProp (e : HLinExpr) : Nat := e.ref

/-- Method `add_var` invoked on a heap-allocated expression: mutates the dict
it references in place; the object's `const` and `sense` are untouched. -/
def HLinExpr.add_var (e : HLinExpr) (h : Heap) (v : Var) (c : ℚ) : Heap :=
  h.set e.ref ((e.val h).add_var v c).expr

/-- Left-hand side of a fully-known constraint: the sum of each stored
coefficient times its variable's solution value (the default value never
matters when every participating variable is known). -/
def lhsVal (e : LinExpr) (sol : VarSol) : ℚ :=
  (e.expr.map fun p => p.2 * ((sol p.1.idx).getD 0)).sum

/-- Well-formedness of a coefficient dict: no two entries share a key index.
This always holds for dicts produced by the Python dict machinery. -/
def Dict.Nodup (d : Dict) : Prop := (d.map fun p => p.1.idx).Nodup

instance (d : Dict) : Decidable (Dict.Nodup d) := by
  unfold Dict.Nodup; infer_instance

/-- Concrete variable `x` (model 0, index 0) for the concrete scenarios. -/
def xv : Var := ⟨0, 0⟩

/-- Concrete variable `y` (model 0, index 1). -/
def yv : Var := ⟨0, 1⟩

/-- Solution with `x = 7, y = 5`. -/
def sol75 : VarSol := fun i => if i = 0 then some 7 else if i = 1 then some 5 else none

/-- Solution with `x = 7, y = 2`. -/
def sol72 : VarSol := fun i => if i = 0 then some 7 else if i = 1 then some 2 else none

/-- Solution with `x = 3, y = 3`. -/
def sol33 : VarSol := fun i => if i = 0 then some 3 else if i = 1 then some 3 else none

/-- Solution where `x = 5` but `y` has no known value. -/
def solNoY : VarSol := fun i => if i = 0 then some 5 else none

/-- Concrete one-dict heap holding `{x: 1}` at reference 0. -/
def heap0 : Heap := ⟨[[(xv, 1)]]⟩

/-- Concrete heap-allocated expression object over `heap0`. -/
def hobj : HLinExpr := ⟨0, 0, "<"⟩

/-! Helper lemmas. -/

theorem lhsSum_ok (sol : VarSol) (d : Dict) :
    ∀ acc : ℚ, (∀ p ∈ d, (sol p.1.idx).isSome = true) →
      LinExpr.lhsSum sol d acc =
        .ok (acc + (d.map fun p => p.2 * ((sol p.1.idx).getD 0)).sum) := by
  induction d with
  | nil => intro acc _; simp [LinExpr.lhsSum]
  | cons hd tl ih =>
      intro acc h
      obtain ⟨w, c⟩ := hd
      have hw : (sol w.idx).isSome = true := h (w, c) (List.mem_cons_self _ _)
      obtain ⟨vx, hvx⟩ := Option.isSome_iff_exists.mp hw
      have hrec := ih (acc + c * vx) (fun p hp => h p (List.mem_cons_of_mem _ hp))
      simp [LinExpr.lhsSum, Var.x, hvx, hrec]
      ring

theorem xAux_none (sol : VarSol) (d : Dict)
    (h : ∃ p ∈ d, sol p.1.idx = none) :
    ∀ acc : ℚ, LinExpr.xAux sol d acc = none := by
  induction d with
  | nil => simp at h
  | cons hd tl ih =>
      intro acc
      obtain ⟨w, c⟩ := hd
      rcases hq : sol w.idx with _ | vx
      · simp [LinExpr.xAux, Var.x, hq]
      · obtain ⟨p, hp, hpn⟩ := h
        rcases List.mem_cons.mp hp with he | ht
        · rw [he] at hpn; simp at hpn; rw [hpn] at hq; cases hq
        · simp [LinExpr.xAux, Var.x, hq, ih ⟨p, ht, hpn⟩]

theorem lhsSum_none (sol : VarSol) (d : Dict)
    (h : ∃ p ∈ d, sol p.1.idx = none) :
    ∀ acc : ℚ, LinExpr.lhsSum sol d acc = .error .typeError := by
  induction d with
  | nil => simp at h
  | cons hd tl ih =>
      intro acc
      obtain ⟨w, c⟩ := hd
      rcases hq : sol w.idx with _ | vx
      · simp [LinExpr.lhsSum, Var.x, hq]
      · obtain ⟨p, hp, hpn⟩ := h
        rcases List.mem_cons.mp hp with he | ht
        · rw [he] at hpn; simp at hpn; rw [hpn] at hq; cases hq
        · simp [LinExpr.lhsSum, Var.x, hq, ih ⟨p, ht, hpn⟩]

/-! Claim theorems. -/

/-- C1: for every sense-tagged linear expression all of whose participating
variables have known solution values, `violation` equals `|lhs - rhs|` for
sense `"="`, `max (lhs - rhs) 0` for `"<"`, and `max (rhs - lhs) 0` for
`">"`, where `rhs = -const` and `lhs` is the sum of each stored coefficient
times its variable's value. -/
theorem violation_formula (e : LinExpr) (sol : VarSol)
    (hall : ∀ p ∈ e.expr, (sol p.1.idx).isSome = true) :
    (e.sense = "=" → e.violation sol = .ok |lhsVal e sol - (-e.const)|) ∧
    (e.sense = "<" → e.violation sol = .ok (max (lhsVal e sol - (-e.const)) 0)) ∧
    (e.sense = ">" → e.violation sol = .ok (max ((-e.const) - lhsVal e sol) 0)) := by
  have hs := lhsSum_ok sol e.expr 0 hall
  rw [zero_add] at hs
  refine ⟨?_, ?_, ?_⟩ <;> intro hsense <;>
    simp [LinExpr.violation, hs, hsense, lhsVal]

/-- Witness for C1, checking the three concrete scenarios of the claim:
for `x + y <= 10` with `x=7, y=5` the violation is `2`; for `x + y == 10`
with `x=7, y=2` it is `1`; for `x + y >= 10` with `x=3, y=3` it is `4`;
the constraints are built with the overloaded operators. -/
theorem violation_formula_witness :
    (xv.add (.var yv) >>= fun e => e.leRel (.real 10) >>=
      fun c => c.violation sol75) = .ok 2 ∧
    (xv.add (.var yv) >>= fun e => e.eqRel (.real 10) >>=
      fun c => c.violation sol72) = .ok 1 ∧
    (xv.add (.var yv) >>= fun e => e.geRel (.real 10) >>=
      fun c => c.violation sol33) = .ok 4 := by
  have ha : xv.add (.var yv) = .ok ⟨0, [(xv, 1), (yv, 1)], ""⟩ := by
    norm_num [Var.add, LinExpr.mk4, tol, LinExpr.add_var, Dict.lookupIdx, xv, yv]
  have hle : (⟨0, [(xv, 1), (yv, 1)], ""⟩ : LinExpr).leRel (.real 10) =
      .ok ⟨-10, [(xv, 1), (yv, 1)], "<"⟩ := by
    norm_num [LinExpr.leRel, LinExpr.sub, LinExpr.add_const, bind,
      Except.bind, pure, Except.pure]
  have heq : (⟨0, [(xv, 1), (yv, 1)], ""⟩ : LinExpr).eqRel (.real 10) =
      .ok ⟨-10, [(xv, 1), (yv, 1)], "="⟩ := by
    norm_num [LinExpr.eqRel, LinExpr.sub, LinExpr.add_const, bind,
      Except.bind, pure, Except.pure]
  have hge : (⟨0, [(xv, 1), (yv, 1)], ""⟩ : LinExpr).geRel (.real 10) =
      .ok ⟨-10, [(xv, 1), (yv, 1)], ">"⟩ := by
    norm_num [LinExpr.geRel, LinExpr.sub, LinExpr.add_const, bind,
      Except.bind, pure, Except.pure]
  have h1 := (violation_formula ⟨-10, [(xv, 1), (yv, 1)], "<"⟩ sol75
    (by decide)).2.1 rfl
  have h2 := (violation_formula ⟨-10, [(xv, 1), (yv, 1)], "="⟩ sol72
    (by decide)).1 rfl
  have h3 := (violation_formula ⟨-10, [(xv, 1), (yv, 1)], ">"⟩ sol33
    (by decide)).2.2 rfl
  refine ⟨?_, ?_, ?_⟩ <;> rw [ha]
  · show ((⟨0, [(xv, 1), (yv, 1)], ""⟩ : LinExpr).leRel (.real 10) >>=
      fun c => c.violation sol75) = .ok 2
    rw [hle]
    show LinExpr.violation ⟨-10, [(xv, 1), (yv, 1)], "<"⟩ sol75 = .ok 2
    rw [h1]
    norm_num [lhsVal, sol75, xv, yv]
  · show ((⟨0, [(xv, 1), (yv, 1)], ""⟩ : LinExpr).eqRel (.real 10) >>=
      fun c => c.violation sol72) = .ok 1
    rw [heq]
    show LinExpr.violation ⟨-10, [(xv, 1), (yv, 1)], "="⟩ sol72 = .ok 1
    rw [h2]
    norm_num [lhsVal, sol72, xv, yv]
  · show ((⟨0, [(xv, 1), (yv, 1)], ""⟩ : LinExpr).geRel (.real 10) >>=
      fun c => c.violation sol33) = .ok 4
    rw [hge]
    show LinExpr.violation ⟨-10, [(xv, 1), (yv, 1)], ">"⟩ sol33 = .ok 4
    rw [h3]
    norm_num [lhsVal, sol33, xv, yv]

/-- C2 counterexample: the claim states that `violation` also produces the
unknown sentinel rather than raising when a participating variable's value
is unknown; in the code, `sum(coef * var.x ...)` multiplies a number by
`None`, which raises `TypeError`.  Concretely, for the constraint-shaped
expression `y <= 0` under a solution with no known values, `violation`
raises instead of returning a sentinel. -/
theorem violation_unknown_cex :
    (⟨0, [(⟨0, 1⟩, 1)], "<"⟩ : LinExpr).violation (fun _ => none) =
      .error .typeError := rfl

/-- C2 (amended): if some participating variable's value is unknown, the `x`
property returns the `None` sentinel (never substituting zero), while
`violation` raises a `TypeError` instead of producing the sentinel. -/
theorem unknown_propagation (e : LinExpr) (sol : VarSol)
    (h : ∃ p ∈ e.expr, sol p.1.idx = none) :
    e.x sol = none ∧ e.violation sol = .error .typeError := by
  constructor
  · exact xAux_none sol e.expr h e.const
  · simp only [LinExpr.violation]
    rw [lhsSum_none sol e.expr h 0]
    rfl

/-- Witness for C2 (amended): for `(x + y)` built with the overloaded
operators, under a solution where `x = 5` but `y` is unknown, `x`
evaluates to `None` and `violation` raises. -/
theorem unknown_propagation_witness :
    (xv.add (.var yv) >>= fun e => pure (e.x solNoY)) = .ok none ∧
    (xv.add (.var yv) >>= fun e => e.violation solNoY) =
      .error .typeError := by
  have h := unknown_propagation ⟨0, [(xv, 1), (yv, 1)], ""⟩ solNoY
    ⟨(yv, 1), by decide, by decide⟩
  have ha : xv.add (.var yv) = .ok ⟨0, [(xv, 1), (yv, 1)], ""⟩ := by
    norm_num [Var.add, LinExpr.mk4, tol, LinExpr.add_var, Dict.lookupIdx, xv, yv]
  constructor
  · rw [ha]
    show Except.ok (LinExpr.x ⟨0, [(xv, 1), (yv, 1)], ""⟩ solNoY) = .ok none
    rw [h.1]
  · rw [ha]
    show LinExpr.violation ⟨0, [(xv, 1), (yv, 1)], ""⟩ solNoY = .error .typeError
    exact h.2

/-- C3: `ConflictGraph.conflicting` never reaches the solver: as written,
both guards call `isinstance` with a list as its second argument, which
raises `TypeError` for every argument (and the guard's polarity is
inverted besides); so the call raises even for two `Var` arguments,
contradicting the claimed delegation to the solver. -/
theorem conflicting_always_raises (solverAnswer : Bool) (e1 e2 : CGArg) :
    ConflictGraph.conflicting solverAnswer e1 e2 = .error .typeError := rfl

/-- C4: the `model` property returns `None` for an expression with no
variables, but for an expression with at least one variable the
subscripting `self.expr.keys()[0]` raises `TypeError` in Python 3 instead
of returning the owning model (here: an expression whose only variable
belongs to model 3). -/
theorem model_property_raises :
    (⟨0, [(⟨3, 0⟩, 2)], ""⟩ : LinExpr).model = .error .typeError ∧
    (⟨5, [], ""⟩ : LinExpr).model = .ok none := ⟨rfl, rfl⟩

/-- C6: on a fresh linear expression, `add_var v c` followed by
`add_var v (-c)` cancels: the summed coefficient is exactly zero, which
lies within `[-EPS, EPS]`, so the entry is deleted and no entry for `v`
remains. -/
theorem add_var_cancel (v : Var) (c : ℚ) :
    (((⟨0, [], ""⟩ : LinExpr).add_var v c).add_var v (-c)).expr = [] := by
  simp [LinExpr.add_var, Dict.lookupIdx, Dict.delIdx, EPS]

/-- C7 counterexample: the constructor checks lengths only when the variable
list is non-empty (truthy); with an empty variable list and a non-empty
coefficient list the lengths differ yet no error is raised. -/
theorem mk4_empty_vars_no_error :
    ([] : List Var).length ≠ [(1 : ℚ)].length ∧
    LinExpr.mk4 [] [1] 0 "" = .ok ⟨0, [], ""⟩ := ⟨by decide, rfl⟩

/-- C7 (amended): whenever the supplied variable list is non-empty and the
two lists differ in length, the four-argument constructor raises the
length-mismatch `ValueError`. -/
theorem mk4_length_mismatch (vs : List Var) (coeffs : List ℚ) (c : ℚ)
    (s : String) (hne : vs ≠ []) (hlen : vs.length ≠ coeffs.length) :
    LinExpr.mk4 vs coeffs c s = .error .valueError := by
  have h1 : vs.isEmpty = false := by
    cases vs with
    | nil => exact absurd rfl hne
    | cons a l => rfl
  simp [LinExpr.mk4, h1, hlen]

/-- Witness for C7 (amended): one variable and no coefficients raises. -/
theorem mk4_length_mismatch_witness :
    LinExpr.mk4 [xv] [] 0 "" = .error .valueError :=
  mk4_length_mismatch [xv] [] 0 "" (by decide) (by decide)

theorem mem_setIdx {d : Dict} {i : Nat} {x : ℚ} {p : Var × ℚ}
    (hp : p ∈ Dict.setIdx d i x) : p.2 = x ∨ p ∈ d := by
  induction d with
  | nil => simp [Dict.setIdx] at hp
  | cons hd tl ih =>
      obtain ⟨w, c⟩ := hd
      by_cases hw : w.idx = i
      · rw [Dict.setIdx, if_pos hw] at hp
        rcases List.mem_cons.mp hp with he | ht
        · left; rw [he]
        · right; exact List.mem_cons_of_mem _ ht
      · rw [Dict.setIdx, if_neg hw] at hp
        rcases List.mem_cons.mp hp with he | ht
        · right; rw [he]; exact List.mem_cons_self _ _
        · rcases ih ht with h | h
          · exact Or.inl h
          · exact Or.inr (List.mem_cons_of_mem _ h)

theorem mem_delIdx {d : Dict} {i : Nat} {p : Var × ℚ}
    (hp : p ∈ Dict.delIdx d i) : p ∈ d := by
  induction d with
  | nil => simp [Dict.delIdx] at hp
  | cons hd tl ih =>
      obtain ⟨w, c⟩ := hd
      by_cases hw : w.idx = i
      · rw [Dict.delIdx, if_pos hw] at hp
        exact List.mem_cons_of_mem _ hp
      · rw [Dict.delIdx, if_neg hw] at hp
        rcases List.mem_cons.mp hp with he | ht
        · rw [he]; exact List.mem_cons_self _ _
        · exact List.mem_cons_of_mem _ (ih ht)

theorem add_var_sparsity (e : LinExpr) (v : Var) (c : ℚ)
    (hc : tol < |c|) (he : ∀ p ∈ e.expr, tol < |p.2|) :
    ∀ p ∈ (e.add_var v c).expr, tol < |p.2| := by
  intro p hp
  rcases hq : Dict.lookupIdx e.expr v.idx with _ | old
  · simp only [LinExpr.add_var, hq, List.mem_append, List.mem_singleton] at hp
    rcases hp with h | h
    · exact he p h
    · rw [h]; exact hc
  · simp only [LinExpr.add_var, hq] at hp
    by_cases hcond : -EPS ≤ old + c ∧ old + c ≤ EPS
    · rw [if_pos hcond] at hp
      exact he p (mem_delIdx hp)
    · rw [if_neg hcond] at hp
      rcases mem_setIdx hp with h | h
      · rw [h]
        have heps : EPS = tol := rfl
        rcases not_and_or.mp hcond with h1 | h1
        · push_neg at h1
          rw [← heps]
          calc EPS < -(old + c) := by linarith
            _ ≤ |old + c| := neg_le_abs _
        · push_neg at h1
          rw [← heps]
          exact lt_of_lt_of_le h1 (le_abs_self _)
      · exact he p h

theorem mk4_fold_sparsity (l : List (Var × ℚ)) :
    ∀ acc : LinExpr, (∀ p ∈ acc.expr, tol < |p.2|) →
      ∀ p ∈ (l.foldl
        (fun acc p => if |p.2| ≤ tol then acc else acc.add_var p.1 p.2)
        acc).expr, tol < |p.2| := by
  induction l with
  | nil => intro acc h; simpa using h
  | cons hd tl ih =>
      intro acc h
      rw [List.foldl_cons]
      by_cases hc : |hd.2| ≤ tol
      · rw [if_pos hc]; exact ih acc h
      · rw [if_neg hc]
        exact ih _ (add_var_sparsity acc hd.1 hd.2 (not_le.mp hc) h)

/-- C5: every expression produced by the four-argument constructor stores
only coefficients of magnitude strictly above `1e-12`: near-zero input
coefficients are skipped before insertion, and `add_var` deletes an entry
whenever merging lands within the tolerance. -/
theorem mk4_sparsity (vs : List Var) (coeffs : List ℚ) (c : ℚ) (s : String)
    (e : LinExpr) (hok : LinExpr.mk4 vs coeffs c s = .ok e) :
    ∀ p ∈ e.expr, ¬ |p.2| ≤ tol := by
  intro p hp
  rw [LinExpr.mk4] at hok
  by_cases h1 : vs.isEmpty
  · rw [if_pos h1] at hok
    cases hok
    simp at hp
  · rw [if_neg h1] at hok
    by_cases h2 : vs.length ≠ coeffs.length
    · rw [if_pos h2] at hok; cases hok
    · rw [if_neg h2] at hok
      cases hok
      exact not_le.mpr (mk4_fold_sparsity _ _ (by simp) p hp)

/-- Witness for C5: constructing from coefficients `[0, 5]` skips the zero
coefficient and stores only `5`, whose magnitude exceeds the tolerance. -/
theorem mk4_sparsity_witness : ¬ |(5 : ℚ)| ≤ tol := by
  have hok : LinExpr.mk4 [xv, yv] [0, 5] 0 "" =
      .ok ⟨0, [(yv, 5)], ""⟩ := by
    norm_num [LinExpr.mk4, tol, LinExpr.add_var, Dict.lookupIdx, xv, yv]
  exact mk4_sparsity [xv, yv] [0, 5] 0 "" ⟨0, [(yv, 5)], ""⟩ hok
    (yv, 5) (by decide)

theorem getD_append_length (l : List Dict) (d : Dict) :
    (l ++ [d]).getD l.length [] = d := by
  induction l with
  | nil => rfl
  | cons hd tl ih => exact ih

theorem getD_append_lt (l : List Dict) (d : Dict) (r : Nat)
    (h : r < l.length) : (l ++ [d]).getD r [] = l.getD r [] := by
  induction l generalizing r with
  | nil => cases h
  | cons hd tl ih =>
      cases r with
      | zero => rfl
      | succ n => simpa using ih n (Nat.lt_of_succ_lt_succ h)

theorem getD_set_self (l : List Dict) (r : Nat) (d : Dict)
    (h : r < l.length) : (l.set r d).getD r [] = d := by
  induction l generalizing r with
  | nil => cases h
  | cons hd tl ih =>
      cases r with
      | zero => rfl
      | succ n => simpa using ih n (Nat.lt_of_succ_lt_succ h)

theorem getD_set_ne (l : List Dict) (r r' : Nat) (d : Dict) (h : r ≠ r') :
    (l.set r d).getD r' [] = l.getD r' [] := by
  induction l generalizing r r' with
  | nil => rfl
  | cons hd tl ih =>
      cases r with
      | zero =>
          cases r' with
          | zero => exact absurd rfl h
          | succ m => rfl
      | succ n =>
          cases r' with
          | zero => rfl
          | succ m => simpa using ih n m (fun hnm => h (by rw [hnm]))

theorem lookupIdx_of_mem {d : Dict} (hnd : Dict.Nodup d) {p : Var × ℚ}
    (hp : p ∈ d) : Dict.lookupIdx d p.1.idx = some p.2 := by
  induction d with
  | nil => simp at hp
  | cons hd tl ih =>
      obtain ⟨w, c⟩ := hd
      rw [Dict.Nodup, List.map_cons, List.nodup_cons] at hnd
      rcases List.mem_cons.mp hp with he | ht
      · rw [he]; simp [Dict.lookupIdx]
      · rw [Dict.lookupIdx]
        have hw : w.idx ≠ p.1.idx := by
          intro hEq
          exact hnd.1 (hEq ▸ List.mem_map_of_mem (fun q => q.1.idx) ht)
        rw [if_neg hw]
        exact ih hnd.2 ht

theorem equals_self {e : LinExpr} (hnd : Dict.Nodup e.expr) :
    e.equals e = true := by
  rw [LinExpr.equals]
  rw [if_neg (not_not_intro rfl)]
  rw [if_neg (not_not_intro rfl)]
  rw [if_neg (by rw [sub_self, abs_zero]; norm_num [tol])]
  rw [List.all_eq_true]
  intro p hp
  rw [lookupIdx_of_mem hnd hp]
  simp only [sub_self, abs_zero, decide_eq_true_eq]
  norm_num [tol]

/-- C9: a copy structurally equals the original (`e.copy().equals(e)`), and
mutating the copy's coefficient mapping afterwards (via `add_var` on the
copy) never changes the original's stored coefficients, constant, or
sense: the whole observable value of `e` is unchanged. -/
theorem copy_roundtrip (h : Heap) (e : HLinExpr)
    (hr : e.ref < h.dicts.length) (hnd : Dict.Nodup (h.get e.ref)) :
    ((e.copy h).1.val (e.copy h).2).equals (e.val (e.copy h).2) = true ∧
    ∀ v c, e.val ((e.copy h).1.add_var (e.copy h).2 v c) = e.val h := by
  constructor
  · have h1 : (e.copy h).2.get (e.copy h).1.ref = h.get e.ref :=
      getD_append_length _ _
    have h2 : (e.copy h).2.get e.ref = h.get e.ref :=
      getD_append_lt _ _ _ hr
    show LinExpr.equals ⟨e.const, (e.copy h).2.get (e.copy h).1.ref, e.sense⟩
      ⟨e.const, (e.copy h).2.get e.ref, e.sense⟩ = true
    rw [h1, h2]
    exact equals_self hnd
  · intro v c
    rw [HLinExpr.val, HLinExpr.val]
    simp only [LinExpr.mk.injEq]
    refine ⟨trivial, ?_, trivial⟩
    show (((h.dicts ++ [h.get e.ref]).set h.dicts.length _).getD e.ref []) =
      h.dicts.getD e.ref []
    rw [getD_set_ne _ _ _ _ (Nat.ne_of_gt hr)]
    exact getD_append_lt _ _ _ hr

/-- Witness for C9 at a concrete one-dict heap. -/
theorem copy_roundtrip_witness :
    ((hobj.copy heap0).1.val (hobj.copy heap0).2).equals
      (hobj.val (hobj.copy heap0).2) = true ∧
    hobj.val ((hobj.copy heap0).1.add_var (hobj.copy heap0).2 yv 3) =
      hobj.val heap0 :=
  ⟨(copy_roundtrip heap0 hobj (by decide) (by decide)).1,
   (copy_roundtrip heap0 hobj (by decide) (by decide)).2 yv 3⟩

/-- C10: the `expr` property returns the internal coefficient mapping itself,
not a copy: storing a dict through the reference returned by `expr` is
exactly what `e` subsequently sees (so `equals`, `x` and `violation`, all
functions of `e`'s value, see the update), whereas `copy()` yields a
distinct dict reference whose mutation leaves `e`'s value unchanged. -/
theorem expr_prop_aliasing (h : Heap) (e : HLinExpr)
    (hr : e.ref < h.dicts.length) :
    (∀ d : Dict, (e.val (h.set e.exprProp d)).expr = d) ∧
    (e.copy h).1.exprProp ≠ e.exprProp ∧
    ∀ d : Dict, e.val ((e.copy h).2.set (e.copy h).1.exprProp d) = e.val h := by
  refine ⟨?_, ?_, ?_⟩
  · intro d
    exact getD_set_self _ _ _ hr
  · exact Nat.ne_of_gt hr
  · intro d
    rw [HLinExpr.val, HLinExpr.val]
    simp only [LinExpr.mk.injEq]
    refine ⟨trivial, ?_, trivial⟩
    show (((h.dicts ++ [h.get e.ref]).set h.dicts.length d).getD e.ref []) =
      h.dicts.getD e.ref []
    rw [getD_set_ne _ _ _ _ (Nat.ne_of_gt hr)]
    exact getD_append_lt _ _ _ hr

theorem mul_eval (v : Var) (r : ℚ) :
    Var.mul v (.real r) =
      .ok (if |r| ≤ tol then ⟨0, [], ""⟩ else ⟨0, [(v, r)], ""⟩) := by
  by_cases hr : |r| ≤ tol <;>
    simp [Var.mul, LinExpr.mk4, LinExpr.add_var, Dict.lookupIdx, hr]

/-- C8: for all variables `a`, `b` and scalars `c1`, `c2`, the expressions
built by the scalar-multiplication and addition operators as
`c1*a + c2*b` and `c2*b + c1*a` both construct successfully and satisfy
`equals`, independently of insertion order (including the cases where a
scalar is pruned, where `a` and `b` share an index, and where the two
contributions cancel). -/
theorem smul_add_comm (a b : Var) (c1 c2 : ℚ) :
    ∃ s t : LinExpr,
      (a.mul (.real c1) >>= fun p => b.mul (.real c2) >>= fun q =>
        p.add (.lin q)) = .ok s ∧
      (b.mul (.real c2) >>= fun q => a.mul (.real c1) >>= fun p =>
        q.add (.lin p)) = .ok t ∧
      s.equals t = true := by
  have htolpos : (0 : ℚ) < tol := by norm_num [tol]
  rw [mul_eval, mul_eval]
  refine ⟨_, _, rfl, rfl, ?_⟩
  by_cases h1 : |c1| ≤ tol <;> by_cases h2 : |c2| ≤ tol
  · simp [h1, h2, LinExpr.add_expr, LinExpr.add_var, Dict.lookupIdx,
      LinExpr.equals, sub_self, abs_zero, mul_one, le_of_lt htolpos,
      not_le.mpr htolpos]
  · simp [h1, h2, LinExpr.add_expr, LinExpr.add_var, Dict.lookupIdx,
      LinExpr.equals, sub_self, abs_zero, mul_one, le_of_lt htolpos,
      not_le.mpr htolpos]
  · simp [h1, h2, LinExpr.add_expr, LinExpr.add_var, Dict.lookupIdx,
      LinExpr.equals, sub_self, abs_zero, mul_one, le_of_lt htolpos,
      not_le.mpr htolpos]
  · by_cases hab : a.idx = b.idx
    · by_cases hc : -EPS ≤ c1 + c2 ∧ c1 + c2 ≤ EPS
      · have hc2 : -EPS ≤ c2 + c1 ∧ c2 + c1 ≤ EPS := by
          constructor <;> linarith [hc.1, hc.2]
        simp [h1, h2, hab, hc, hc2, LinExpr.add_expr, LinExpr.add_var,
          Dict.lookupIdx, Dict.delIdx, LinExpr.equals, sub_self, abs_zero,
          mul_one, le_of_lt htolpos, not_le.mpr htolpos]
      · have hc2 : ¬(-EPS ≤ c2 + c1 ∧ c2 + c1 ≤ EPS) := by
          rw [add_comm c2 c1]; exact hc
        simp [h1, h2, hab, hc, hc2, LinExpr.add_expr, LinExpr.add_var,
          Dict.lookupIdx, Dict.setIdx, LinExpr.equals, sub_self, abs_zero,
          mul_one, le_of_lt htolpos, not_le.mpr htolpos, add_comm]
    · have hba : ¬(b.idx = a.idx) := fun hEq => hab hEq.symm
      simp [h1, h2, hab, hba, LinExpr.add_expr, LinExpr.add_var,
        Dict.lookupIdx, LinExpr.equals, sub_self, abs_zero, mul_one,
        le_of_lt htolpos, not_le.mpr htolpos]

/-- Witness for C10 at a concrete one-dict heap and a concrete update. -/
theorem expr_prop_aliasing_witness :
    (hobj.val (heap0.set hobj.exprProp [(yv, 2)])).expr = [(yv, 2)] ∧
    (hobj.copy heap0).1.exprProp ≠ hobj.exprProp ∧
    hobj.val ((hobj.copy heap0).2.set (hobj.copy heap0).1.exprProp
      [(yv, 2)]) = hobj.val heap0 :=
  ⟨(expr_prop_aliasing heap0 hobj (by decide)).1 [(yv, 2)],
   (expr_prop_aliasing heap0 hobj (by decide)).2.1,
   (expr_prop_aliasing heap0 hobj (by decide)).2.2 [(yv, 2)]⟩

end Entities
